import Mathlib

/-!
Verification of the LiveTVCollector pipeline (src/BugsfreeMain/Italy.py).

Python strings are modelled as lists of characters (`List Char`), so that every
operation of the embedding is a structurally-recursive, kernel-computable
function.  The parser `parse_m3u`, the per-URL probe `check_link_active` and
the URL-deduplication loop of `main` are embedded faithfully; network effects
are abstracted as an `HttpWorld` supplying the outcome of each HEAD/GET probe,
and `check_link_active` additionally returns the trace of requests it issued.
-/

namespace LiveTV

/-- Whitespace characters stripped by Python str.strip(). -/
def isSpace (c : Char) : Bool :=
  c = ' ' || c = '\t' || c = '\n' || c = '\r' || c = '\x0b' || c = '\x0c'

/-- Remove leading whitespace. -/
def trimLeft : List Char → List Char
  | [] => []
  | c :: rest => if isSpace c then trimLeft rest else c :: rest

/-- Python str.strip(): remove leading and trailing whitespace. -/
def trim (cs : List Char) : List Char :=
  (trimLeft (trimLeft cs.reverse).reverse)

/-- Python content.split over a newline separator: always at least one piece. -/
def splitOnNl : List Char → List (List Char)
  | [] => [[]]
  | c :: rest =>
    if c = '\n' then [] :: splitOnNl rest
    else
      match splitOnNl rest with
      | [] => [[c]]
      | l :: ls => (c :: l) :: ls

/-- Python str.startswith (case sensitive). -/
def startsWithL : List Char → List Char → Bool
  | [], _ => true
  | _ :: _, [] => false
  | p :: ps, c :: cs => p = c && startsWithL ps cs

/-- Case-insensitive match of a pattern at the head of the text; on success
returns the remaining text after the pattern. -/
def matchCI : List Char → List Char → Option (List Char)
  | [], t => some t
  | _ :: _, [] => none
  | p :: ps, c :: cs => if p.toLower = c.toLower then matchCI ps cs else none

/-- Characters up to (excluding) the next double quote; none if no quote. -/
def takeUntilQuote : List Char → Option (List Char)
  | [] => none
  | c :: rest =>
    if c = '"' then some []
    else (takeUntilQuote rest).map (c :: ·)

/-- Embedding of re.search of a pattern of the shape key="([^"]*)" with
re.IGNORECASE: leftmost position where the key (ending in a literal opening
quote) matches case-insensitively and a closing quote follows; the capture is
the text between the quotes. -/
def searchAttr (key : List Char) : List Char → Option (List Char)
  | [] => none
  | c :: rest =>
    match matchCI key (c :: rest) with
    | some after =>
      match takeUntilQuote after with
      | some v => some v
      | none => searchAttr key rest
    | none => searchAttr key rest

/-- Python line.rfind of a comma: the text after the last comma, if any. -/
def afterLastComma : List Char → Option (List Char)
  | [] => none
  | c :: rest =>
    match afterLastComma rest with
    | some t => some t
    | none => if c = ',' then some rest else none

/-! Attribute keys of the parser, each ending with the opening quote. -/

def keyTvgId : List Char := "tvg-id=\"".toList
def keyTvgName : List Char := "tvg-name=\"".toList
def keyTvgLogo : List Char := "tvg-logo=\"".toList
def keyGroupTitle : List Char := "group-title=\"".toList
def keyUrlTvg : List Char := "url-tvg=\"".toList
def keyXTvgUrl : List Char := "x-tvg-url=\"".toList
def keyTvgUrl : List Char := "tvg-url=\"".toList

def litExtm3u : List Char := "#EXTM3U".toList
def litExtinf : List Char := "#EXTINF:".toList
def litHash : List Char := "#".toList
def litHttp : List Char := "http://".toList
def litHttps : List Char := "https://".toList
def unknownChannel : List Char := "Unknown Channel".toList
def defaultGroup : List Char := "General".toList

/-- The canonical channel entity produced by the parser. -/
structure MRecord where
  tvg_id : Option (List Char)
  name : List Char
  logo : List Char
  group : List Char
  url : List Char
  source : List Char
  epg_url : Option (List Char)
deriving DecidableEq, Repr

/-- The pending-record accumulator filled from one #EXTINF: line. -/
structure Pending where
  tvg_id : Option (List Char)
  name : List Char
  logo : List Char
  group : List Char
deriving DecidableEq, Repr

/-- Display-name resolution of the EXTINF branch (lines 77-86 of the source):
Python truthiness makes an empty attribute value fall through to the trailing
comma text, then to the "Unknown Channel" literal. -/
def resolveName (attr : Option (List Char)) (line : List Char) : List Char :=
  let n := attr.getD []
  match afterLastComma line with
  | some t =>
    let d := trim t
    if !d.isEmpty && n.isEmpty then d
    else if n.isEmpty then unknownChannel
    else n
  | none => if n.isEmpty then unknownChannel else n

/-- The pending record built from one (stripped) #EXTINF: line
(lines 50-86 of the source). -/
def mkPending (line : List Char) : Pending :=
  { tvg_id := searchAttr keyTvgId line
    name := resolveName (searchAttr keyTvgName line) line
    logo := (searchAttr keyTvgLogo line).getD []
    group := (searchAttr keyGroupTitle line).getD defaultGroup }

/-- EPG extraction from a #EXTM3U header line: three attribute names tried in
priority order (lines 40-44 of the source). -/
def extractEpg (line : List Char) : Option (List Char) :=
  match searchAttr keyUrlTvg line with
  | some v => some v
  | none =>
    match searchAttr keyXTvgUrl line with
    | some v => some v
    | none => searchAttr keyTvgUrl line

/-- The header branch keeps the previous epg value when no attribute matches
(lines 45-46 of the source). -/
def updateEpg (epg : Option (List Char)) (line : List Char) : Option (List Char) :=
  match extractEpg line with
  | some v => some v
  | none => epg

/-- A Record completed by a stream-URL line (lines 95-100 of the source). -/
def mkRecord (p : Pending) (url src : List Char) (epg : Option (List Char)) : MRecord :=
  { tvg_id := p.tvg_id
    name := p.name
    logo := p.logo
    group := p.group
    url := url
    source := src
    epg_url := epg }

/-- The line loop of parse_m3u (lines 35-101 of the source), with the pending
dict modelled as an Option (it is non-empty exactly when an EXTINF line is
awaiting its URL). -/
def parseLines (src : List Char) :
    List (List Char) → Option Pending → Option (List Char) → List MRecord
  | [], _, _ => []
  | l :: rest, pending, epg =>
    let line := trim l
    if startsWithL litExtm3u line then
      parseLines src rest pending (updateEpg epg line)
    else if startsWithL litExtinf line then
      parseLines src rest (some (mkPending line)) epg
    else if startsWithL litHash line then
      parseLines src rest pending epg
    else
      match pending with
      | some p =>
        if !line.isEmpty && (startsWithL litHttp line || startsWithL litHttps line) then
          mkRecord p line src epg :: parseLines src rest none epg
        else
          parseLines src rest pending epg
      | none => parseLines src rest pending epg

/-- parse_m3u(content, source_url). -/
def parse_m3u (content src : List Char) : List MRecord :=
  parseLines src (splitOnNl content) none none

/-! ## Liveness probe (check_link_active, lines 105-119 of the source) -/

/-- Outcome of one network request, as seen by the try/except structure of
check_link_active: a response with a status code, a requests Timeout, or any
other RequestException / transport failure. -/
inductive ProbeResult where
  | response (status : Nat)
  | timeout
  | reqError
deriving DecidableEq, Repr

/-- Request method of a probe. -/
inductive ReqMethod where
  | headReq
  | getReq
deriving DecidableEq, Repr

/-- The network environment: the outcome of a HEAD or GET request for a given
URL and timeout. -/
structure HttpWorld where
  headOutcome : List Char → Nat → ProbeResult
  getOutcome : List Char → Nat → ProbeResult

/-- status_code in range(200, 400) (line 110/117 of the source). -/
def statusOk (s : Nat) : Bool :=
  decide (200 ≤ s ∧ s < 400)

/-- check_link_active(url, timeout): the HEAD probe first; a Timeout returns
False at once; any other RequestException falls back to one GET probe with the
same timeout, whose own failure of any kind returns False.  Besides the
boolean judgment the embedding returns the trace of (method, timeout) requests
issued. -/
def check_link_active (w : HttpWorld) (url : List Char) (timeout : Nat) :
    Bool × List (ReqMethod × Nat) :=
  match w.headOutcome url timeout with
  | ProbeResult.response s => (statusOk s, [(ReqMethod.headReq, timeout)])
  | ProbeResult.timeout => (false, [(ReqMethod.headReq, timeout)])
  | ProbeResult.reqError =>
    match w.getOutcome url timeout with
    | ProbeResult.response s =>
      (statusOk s, [(ReqMethod.headReq, timeout), (ReqMethod.getReq, timeout)])
    | _ => (false, [(ReqMethod.headReq, timeout), (ReqMethod.getReq, timeout)])

/-! ## Deduplication (lines 244-251 of the source) -/

/-- The dedup loop of main: keep a record when its url is not in the seen set,
then add the url to the set.  The Python set is modelled as the list of seen
urls, membership being exact string equality. -/
def dedupeAux : List MRecord → List (List Char) → List MRecord
  | [], _ => []
  | ch :: rest, seen =>
    if ch.url ∈ seen then dedupeAux rest seen
    else ch :: dedupeAux rest (ch.url :: seen)

/-- Deduplication of the full concatenated record list, empty seen set. -/
def dedupe (l : List MRecord) : List MRecord :=
  dedupeAux l []

/-! ## Specification-side definitions (for refinement statements) -/

/-- Name resolution as the amended specification words it: the quoted tvg-name
attribute when present with a non-empty value; else the text after the final
comma, trimmed, when non-empty; else the literal "Unknown Channel". -/
def specTrailingName (line : List Char) : List Char :=
  match afterLastComma line with
  | some t => if !(trim t).isEmpty then trim t else unknownChannel
  | none => unknownChannel

/-- Spec-side three-tier display-name precedence. -/
def specName (line : List Char) : List Char :=
  match searchAttr keyTvgName line with
  | some v => if !v.isEmpty then v else specTrailingName line
  | none => specTrailingName line

/-- A directive or stream-URL item of a document, all other lines being inert. -/
inductive DUItem where
  | dir (p : Pending)
  | url (u : List Char)
deriving DecidableEq, Repr

/-- The subsequence of a document's lines that are EXTINF directives or
stream-URL lines, classified exactly as the parser classifies lines. -/
def filterDU : List (List Char) → List DUItem
  | [] => []
  | l :: rest =>
    let line := trim l
    if startsWithL litExtm3u line then filterDU rest
    else if startsWithL litExtinf line then DUItem.dir (mkPending line) :: filterDU rest
    else if startsWithL litHash line then filterDU rest
    else if !line.isEmpty && (startsWithL litHttp line || startsWithL litHttps line) then
      DUItem.url line :: filterDU rest
    else filterDU rest

/-- Declarative (EXTINF directive, stream URL) pairing: among the directive and
URL items alone, a pair is an adjacent directive-then-URL; a directive followed
by another directive is discarded, a URL with no adjacent preceding directive
is dropped. -/
def specPairs : List DUItem → List (Pending × List Char)
  | DUItem.dir p :: DUItem.url u :: rest => (p, u) :: specPairs rest
  | DUItem.dir _ :: DUItem.dir q :: rest => specPairs (DUItem.dir q :: rest)
  | DUItem.dir _ :: [] => []
  | DUItem.url _ :: rest => specPairs rest
  | [] => []

/-- The epg value a document determines from its first line: the header
attribute extraction when the first line is a #EXTM3U header, unset otherwise. -/
def docEpg (content : List Char) : Option (List Char) :=
  match splitOnNl content with
  | [] => none
  | l :: _ =>
    let t := trim l
    if startsWithL litExtm3u t then updateEpg none t else none

/-! ## Theorems about the probe -/

/-- C2: when the primary HEAD probe fails for a non-timeout transport reason,
exactly one GET fallback probe is issued with the same timeout; a fallback
response is judged by the same statusOk range, and a fallback failure of any
kind yields inactive with no further requests. -/
theorem c2_fallback_on_error (w : HttpWorld) (url : List Char) (t : Nat)
    (h : w.headOutcome url t = ProbeResult.reqError) :
    (check_link_active w url t).2 = [(ReqMethod.headReq, t), (ReqMethod.getReq, t)] ∧
    (∀ s, w.getOutcome url t = ProbeResult.response s →
      (check_link_active w url t).1 = statusOk s) ∧
    ((w.getOutcome url t = ProbeResult.timeout ∨ w.getOutcome url t = ProbeResult.reqError) →
      (check_link_active w url t).1 = false) := by
  unfold check_link_active
  rw [h]
  cases hg : w.getOutcome url t <;> simp_all

/-- A world whose HEAD probes always raise a connection error and whose GET
probes always time out. -/
def wErrThenTimeout : HttpWorld :=
  { headOutcome := fun _ _ => ProbeResult.reqError
    getOutcome := fun _ _ => ProbeResult.timeout }

/-- C2 witness: concrete world exercising the fallback-failure path. -/
theorem c2_witness :
    (check_link_active wErrThenTimeout "http://a".toList 5).2 =
      [(ReqMethod.headReq, 5), (ReqMethod.getReq, 5)] ∧
    (check_link_active wErrThenTimeout "http://a".toList 5).1 = false := by
  refine ⟨(c2_fallback_on_error wErrThenTimeout "http://a".toList 5 rfl).1, ?_⟩
  exact (c2_fallback_on_error wErrThenTimeout "http://a".toList 5 rfl).2.2 (Or.inl rfl)

/-- C5: a primary-probe timeout is judged inactive at once; the request trace
contains only the HEAD probe, so the GET fallback is never issued. -/
theorem c5_timeout_short_circuit (w : HttpWorld) (url : List Char) (t : Nat)
    (h : w.headOutcome url t = ProbeResult.timeout) :
    (check_link_active w url t).1 = false ∧
    (check_link_active w url t).2 = [(ReqMethod.headReq, t)] := by
  unfold check_link_active
  rw [h]
  exact ⟨rfl, rfl⟩

/-- A world whose HEAD probes always time out. -/
def wTimeout : HttpWorld :=
  { headOutcome := fun _ _ => ProbeResult.timeout
    getOutcome := fun _ _ => ProbeResult.response 200 }

/-- C5 witness: concrete timing-out world. -/
theorem c5_witness :
    (check_link_active wTimeout "http://a".toList 5).1 = false ∧
    (check_link_active wTimeout "http://a".toList 5).2 = [(ReqMethod.headReq, 5)] :=
  c5_timeout_short_circuit wTimeout "http://a".toList 5 rfl

/-- C6: whenever a probe (primary, or fallback after a primary transport
error) completes with a response of status s, the judgment is active exactly
when 200 ≤ s < 400; in particular 200 and 399 are active and 400 is not. -/
theorem c6_status_range (w : HttpWorld) (url : List Char) (t s : Nat) :
    (w.headOutcome url t = ProbeResult.response s →
      ((check_link_active w url t).1 = true ↔ (200 ≤ s ∧ s < 400))) ∧
    (w.headOutcome url t = ProbeResult.reqError →
      w.getOutcome url t = ProbeResult.response s →
      ((check_link_active w url t).1 = true ↔ (200 ≤ s ∧ s < 400))) ∧
    (statusOk 200 = true ∧ statusOk 399 = true ∧ statusOk 400 = false) := by
  refine ⟨?_, ?_, by decide⟩
  · intro h
    unfold check_link_active
    rw [h]
    simp [statusOk]
  · intro h hg
    unfold check_link_active
    rw [h, hg]
    simp [statusOk]

/-- A world whose HEAD probes answer with status 399. -/
def wResp399 : HttpWorld :=
  { headOutcome := fun _ _ => ProbeResult.response 399
    getOutcome := fun _ _ => ProbeResult.reqError }

/-- C6 witness: status 399 on the primary probe is judged active. -/
theorem c6_witness :
    (check_link_active wResp399 "http://a".toList 5).1 = true :=
  ((c6_status_range wResp399 "http://a".toList 5 399).1 rfl).mpr (by decide)

/-! ## Theorems about deduplication -/

lemma dedupeAux_sublist (l : List MRecord) : ∀ seen, List.Sublist (dedupeAux l seen) l := by
  induction l with
  | nil => intro seen; simp [dedupeAux]
  | cons ch rest ih =>
    intro seen
    rw [dedupeAux]
    by_cases hs : ch.url ∈ seen
    · rw [if_pos hs]
      exact (ih seen).cons ch
    · rw [if_neg hs]
      exact (ih _).cons₂ ch

lemma dedupeAux_filter (l : List MRecord) :
    ∀ (seen : List (List Char)) (u : List Char),
      (dedupeAux l seen).filter (fun r => decide (r.url = u)) =
        if u ∈ seen then [] else (l.filter (fun r => decide (r.url = u))).take 1 := by
  induction l with
  | nil => intro seen u; simp [dedupeAux]
  | cons ch rest ih =>
    intro seen u
    rw [dedupeAux]
    by_cases hs : ch.url ∈ seen
    · rw [if_pos hs]
      by_cases hu : u ∈ seen
      · simp [ih, hu]
      · have hne : ¬ ch.url = u := fun he => hu (he ▸ hs)
        simp [ih, hu, List.filter_cons, hne]
    · rw [if_neg hs]
      by_cases hcu : ch.url = u
      · have hu : ¬ u ∈ seen := fun hm => hs (hcu ▸ hm)
        have hmem : u ∈ ch.url :: seen := by simp [hcu]
        simp [List.filter_cons, hcu, ih, hmem, hu]
      · by_cases hu : u ∈ seen
        · have hmem : u ∈ ch.url :: seen := by simp [hu]
          simp [List.filter_cons, hcu, ih, hmem, hu]
        · have hmem : ¬ u ∈ ch.url :: seen := by
            simp only [List.mem_cons]
            rintro (he | he)
            · exact hcu he.symm
            · exact hu he
          simp [List.filter_cons, hcu, ih, hmem, hu]

/-- C3: deduplication preserves input order (the output is a sublist of the
input) and, for every url value u, keeps exactly the first input record whose
url equals u — equality being exact character-list equality. -/
theorem c3_dedupe_first_occurrence (l : List MRecord) (u : List Char) :
    List.Sublist (dedupe l) l ∧
    (dedupe l).filter (fun r => decide (r.url = u)) =
      (l.filter (fun r => decide (r.url = u))).take 1 := by
  refine ⟨dedupeAux_sublist l [], ?_⟩
  simpa using dedupeAux_filter l [] u

/-! ## Theorems about display-name resolution -/

/-- Document containing a tvg-name attribute that is present but empty. -/
def c1doc : List Char := "#EXTINF:-1 tvg-name=\"\",Bar\nhttps://x/y".toList

/-- C1 counterexample: on a directive line whose tvg-name attribute is present
with an empty quoted value, the emitted name is the trailing text "Bar", not
the present attribute's value "". -/
theorem c1_counterexample :
    searchAttr keyTvgName (trim "#EXTINF:-1 tvg-name=\"\",Bar".toList) = some [] ∧
    (parse_m3u c1doc "s".toList).map (fun r => r.name) = ["Bar".toList] ∧
    ("Bar".toList : List Char) ≠ ([] : List Char) := by
  refine ⟨by decide, by decide, by decide⟩

/-- C1 (amended): per directive line, the name is the quoted tvg-name
attribute when present with a non-empty value; else the trimmed text after the
final comma when non-empty; else the literal "Unknown Channel". -/
theorem c1_name_resolution (line : List Char) :
    (mkPending line).name = specName line := by
  unfold mkPending resolveName specName specTrailingName
  cases h : searchAttr keyTvgName line with
  | none =>
    simp only [Option.getD, List.isEmpty_nil]
    cases hc : afterLastComma line with
    | none => simp
    | some t => by_cases hd : (trim t).isEmpty <;> simp [hd]
  | some v =>
    simp only [Option.getD]
    by_cases hv : v.isEmpty
    · have hvnil : v = [] := by
        cases v with
        | nil => rfl
        | cons a l => simp [List.isEmpty] at hv
      subst hvnil
      cases hc : afterLastComma line with
      | none => simp
      | some t => by_cases hd : (trim t).isEmpty <;> simp [hd]
    · cases hc : afterLastComma line with
      | none => simp [hv]
      | some t => by_cases hd : (trim t).isEmpty <;> simp [hd, hv]

/-- C10: when the tvg-name attribute is present with an empty quoted value,
the emitted name is the trimmed trailing comma text when non-empty, else
"Unknown Channel" — never the empty attribute value. -/
theorem c10_empty_attr_fallback (line : List Char)
    (h : searchAttr keyTvgName line = some []) :
    (mkPending line).name = specTrailingName line ∧
    ¬ (mkPending line).name = ([] : List Char) := by
  have hname : (mkPending line).name = specTrailingName line := by
    unfold mkPending resolveName specTrailingName
    rw [h]
    simp only [Option.getD, List.isEmpty_nil]
    cases hc : afterLastComma line with
    | none => simp
    | some t => by_cases hd : (trim t).isEmpty <;> simp [hd]
  refine ⟨hname, ?_⟩
  rw [hname]
  unfold specTrailingName
  cases hc : afterLastComma line with
  | none => simp [unknownChannel]
  | some t =>
    by_cases hd : (trim t).isEmpty
    · simp [hd, unknownChannel]
    · simpa [hd] using fun he => by simp [he, List.isEmpty] at hd

/-- C10 witness: the concrete empty-attribute line resolves to "Bar". -/
theorem c10_witness :
    (mkPending "#EXTINF:-1 tvg-name=\"\",Bar".toList).name =
      specTrailingName "#EXTINF:-1 tvg-name=\"\",Bar".toList ∧
    ¬ (mkPending "#EXTINF:-1 tvg-name=\"\",Bar".toList).name = ([] : List Char) :=
  c10_empty_attr_fallback "#EXTINF:-1 tvg-name=\"\",Bar".toList (by decide)

/-! ## Theorems about epg_url -/

/-- A document with two #EXTM3U header lines carrying different guide URLs. -/
def c4docTwoHeaders : List Char :=
  ("#EXTM3U url-tvg=\"A\"\n#EXTINF:-1,One\nhttp://a\n" ++
   "#EXTM3U url-tvg=\"B\"\n#EXTINF:-1,Two\nhttp://b").toList

/-- C4 counterexample: a later header overwrites the epg value, so two Records
of the same document carry different epg_url values. -/
theorem c4_counterexample :
    (parse_m3u c4docTwoHeaders "s".toList).map (fun r => r.epg_url) =
      [some "A".toList, some "B".toList] ∧
    ¬ (some "A".toList : Option (List Char)) = some "B".toList :=
  ⟨by decide, by decide⟩

lemma parseLines_epg_stable (src : List Char) (lines : List (List Char)) :
    ∀ (pending : Option Pending) (epg : Option (List Char)),
      (∀ l ∈ lines, startsWithL litExtm3u (trim l) = false) →
      ∀ r ∈ parseLines src lines pending epg, r.epg_url = epg := by
  induction lines with
  | nil =>
    intro pending epg _ r hr
    simp [parseLines] at hr
  | cons l rest ih =>
    intro pending epg h r hr
    have hl : startsWithL litExtm3u (trim l) = false := h l (by simp)
    have hrest : ∀ l' ∈ rest, startsWithL litExtm3u (trim l') = false :=
      fun l' hm => h l' (by simp [hm])
    simp only [parseLines, hl, Bool.false_eq_true, if_false] at hr
    by_cases h2 : startsWithL litExtinf (trim l) = true
    · simp only [h2, if_true] at hr
      exact ih _ epg hrest r hr
    · simp only [h2, if_false] at hr
      by_cases h3 : startsWithL litHash (trim l) = true
      · simp only [h3, if_true] at hr
        exact ih pending epg hrest r hr
      · simp only [h3, if_false] at hr
        cases pending with
        | none => exact ih none epg hrest r hr
        | some p =>
          by_cases h4 :
              (!(trim l).isEmpty &&
                (startsWithL litHttp (trim l) || startsWithL litHttps (trim l))) = true
          · simp only [h4, if_true] at hr
            cases hr with
            | head => rfl
            | tail _ hm => exact ih none epg hrest r hm
          · simp only [h4, if_false] at hr
            exact ih (some p) epg hrest r hr

/-- C4 (amended): for a document with no #EXTM3U header line after its first
line, every Record emitted by parse carries the same epg_url, determined from
the document's first line (unset when it is not a matching header). -/
theorem c4_epg_per_document (content src : List Char)
    (h : ∀ l ∈ (splitOnNl content).tail, startsWithL litExtm3u (trim l) = false) :
    ∀ r ∈ parse_m3u content src, r.epg_url = docEpg content := by
  intro r hr
  unfold parse_m3u at hr
  unfold docEpg
  cases hsplit : splitOnNl content with
  | nil =>
    rw [hsplit] at hr
    simp [parseLines] at hr
  | cons l rest =>
    rw [hsplit] at hr h
    simp only [List.tail_cons] at h
    by_cases hh : startsWithL litExtm3u (trim l) = true
    · simp only [parseLines, hh, if_true] at hr
      rw [parseLines_epg_stable src rest none (updateEpg none (trim l)) h r hr]
      simp [hh]
    · have hh' : startsWithL litExtm3u (trim l) = false := by
        cases hb : startsWithL litExtm3u (trim l)
        · rfl
        · exact absurd hb hh
      simp only [parseLines, hh', Bool.false_eq_true, if_false] at hr
      have hnone : r.epg_url = none := by
        by_cases h2 : startsWithL litExtinf (trim l) = true
        · simp only [h2, if_true] at hr
          exact parseLines_epg_stable src rest _ none h r hr
        · simp only [h2, if_false] at hr
          by_cases h3 : startsWithL litHash (trim l) = true
          · simp only [h3, if_true] at hr
            exact parseLines_epg_stable src rest none none h r hr
          · simp only [h3, if_false] at hr
            exact parseLines_epg_stable src rest none none h r hr
      rw [hnone]
      simp [hh']

/-- Single-header document for the C4 witness. -/
def c4docOneHeader : List Char :=
  "#EXTM3U url-tvg=\"E\"\n#EXTINF:-1,A\nhttp://a".toList

/-- C4 witness: in the single-header document, the unique emitted Record
carries the header's guide URL. -/
theorem c4_witness :
    (MRecord.mk none "A".toList [] defaultGroup "http://a".toList "s".toList
        (some "E".toList)).epg_url = docEpg c4docOneHeader :=
  c4_epg_per_document c4docOneHeader "s".toList (by decide) _ (by decide)

/-! ## Theorems about the directive/URL pairing -/

/-- The pending accumulator seen as a (possibly empty) leading directive item. -/
def pendItems : Option Pending → List DUItem
  | none => []
  | some p => [DUItem.dir p]

lemma specPairs_dir_dir (p q : Pending) (tl : List DUItem) :
    specPairs (DUItem.dir p :: DUItem.dir q :: tl) = specPairs (DUItem.dir q :: tl) := rfl

lemma specPairs_dir_url (p : Pending) (u : List Char) (tl : List DUItem) :
    specPairs (DUItem.dir p :: DUItem.url u :: tl) = (p, u) :: specPairs tl := rfl

lemma specPairs_url (u : List Char) (tl : List DUItem) :
    specPairs (DUItem.url u :: tl) = specPairs tl := rfl

lemma parseLines_pairs (src : List Char) (lines : List (List Char)) :
    ∀ (pending : Option Pending) (epg : Option (List Char)),
      (parseLines src lines pending epg).map (fun r => (r.name, r.url)) =
      (specPairs (pendItems pending ++ filterDU lines)).map (fun q => (q.1.name, q.2)) := by
  induction lines with
  | nil =>
    intro pending epg
    cases pending with
    | none => simp [parseLines, filterDU, pendItems, specPairs]
    | some p => simp [parseLines, filterDU, pendItems, specPairs]
  | cons l rest ih =>
    intro pending epg
    by_cases h1 : startsWithL litExtm3u (trim l) = true
    · simp only [parseLines, filterDU, h1, if_true]
      exact ih pending (updateEpg epg (trim l))
    · by_cases h2 : startsWithL litExtinf (trim l) = true
      · simp only [parseLines, filterDU, h1, h2, Bool.false_eq_true, if_true, if_false]
        cases pending with
        | none => simpa [pendItems] using ih (some (mkPending (trim l))) epg
        | some p =>
          simp only [pendItems, List.cons_append, List.nil_append, specPairs_dir_dir]
          simpa [pendItems] using ih (some (mkPending (trim l))) epg
      · by_cases h3 : startsWithL litHash (trim l) = true
        · simp only [parseLines, filterDU, h1, h2, h3, Bool.false_eq_true, if_true, if_false]
          exact ih pending epg
        · by_cases h4 :
              (!(trim l).isEmpty &&
                (startsWithL litHttp (trim l) || startsWithL litHttps (trim l))) = true
          · simp only [parseLines, filterDU, h1, h2, h3, h4, Bool.false_eq_true, if_true, if_false]
            cases pending with
            | none =>
              simp only [pendItems, List.nil_append, specPairs_url]
              simpa [pendItems] using ih none epg
            | some p =>
              simp only [pendItems, List.cons_append, List.nil_append, specPairs_dir_url,
                List.map_cons]
              have := ih none epg
              simp only [pendItems, List.nil_append] at this
              rw [this]
              rfl
          · simp only [parseLines, filterDU, h1, h2, h3, h4, Bool.false_eq_true, if_true, if_false]
            cases pending with
            | none => exact ih none epg
            | some p => exact ih (some p) epg

/-- C7: parse emits exactly one Record per (EXTINF directive, stream URL)
pair, in document order: the (name, url) projections of the parse output
coincide with the declarative adjacent directive/URL pairing of the document's
directive and stream-URL lines, under which a directive followed by another
directive is discarded and a URL with no adjacent preceding directive yields
no Record. -/
theorem c7_pairing (content src : List Char) :
    (parse_m3u content src).map (fun r => (r.name, r.url)) =
    (specPairs (filterDU (splitOnNl content))).map (fun q => (q.1.name, q.2)) := by
  simpa [pendItems] using parseLines_pairs src (splitOnNl content) none none

/-! ## Theorems about Record field invariants -/

lemma parseLines_url_ne_nil (src : List Char) (lines : List (List Char)) :
    ∀ (pending : Option Pending) (epg : Option (List Char)),
      ∀ r ∈ parseLines src lines pending epg, ¬ r.url = ([] : List Char) := by
  induction lines with
  | nil =>
    intro pending epg r hr
    simp [parseLines] at hr
  | cons l rest ih =>
    intro pending epg r hr
    by_cases h1 : startsWithL litExtm3u (trim l) = true
    · simp only [parseLines, h1, if_true] at hr
      exact ih pending _ r hr
    · by_cases h2 : startsWithL litExtinf (trim l) = true
      · simp only [parseLines, h1, h2, Bool.false_eq_true, if_true, if_false] at hr
        exact ih _ epg r hr
      · by_cases h3 : startsWithL litHash (trim l) = true
        · simp only [parseLines, h1, h2, h3, Bool.false_eq_true, if_true, if_false] at hr
          exact ih pending epg r hr
        · cases pending with
          | none =>
            simp only [parseLines, h1, h2, h3, Bool.false_eq_true, if_true, if_false] at hr
            exact ih none epg r hr
          | some p =>
            by_cases h4 :
                (!(trim l).isEmpty &&
                  (startsWithL litHttp (trim l) || startsWithL litHttps (trim l))) = true
            · simp only [parseLines, h1, h2, h3, h4, Bool.false_eq_true, if_true, if_false] at hr
              cases hr with
              | head =>
                intro he
                have hne : (trim l).isEmpty = false := by
                  have := (Bool.and_eq_true _ _).mp h4
                  simpa using this.1
                rw [show (mkRecord p (trim l) src epg).url = trim l from rfl] at he
                rw [he] at hne
                simp [List.isEmpty] at hne
              | tail _ hm => exact ih none epg r hm
            · simp only [parseLines, h1, h2, h3, h4, Bool.false_eq_true, if_true, if_false] at hr
              exact ih (some p) epg r hr

/-- C8: every Record emitted by parse has a non-empty url; the logo and group
fields are total (never absent) and default to "" and "General" when the
directive line carries no matching attribute. -/
theorem c8_record_invariants (content src : List Char) :
    (∀ r ∈ parse_m3u content src, ¬ r.url = ([] : List Char)) ∧
    (∀ line, searchAttr keyTvgLogo line = none → (mkPending line).logo = ([] : List Char)) ∧
    (∀ line, searchAttr keyGroupTitle line = none → (mkPending line).group = defaultGroup) := by
  refine ⟨?_, ?_, ?_⟩
  · intro r hr
    exact parseLines_url_ne_nil src (splitOnNl content) none none r hr
  · intro line h
    unfold mkPending
    rw [h]
    rfl
  · intro line h
    unfold mkPending
    rw [h]
    rfl

/-- C8 witness: the Record of the single-header document has a non-empty url,
and a directive line without logo/group attributes gets the defaults. -/
theorem c8_witness :
    ¬ (MRecord.mk none "A".toList [] defaultGroup "http://a".toList "s".toList
        (some "E".toList)).url = ([] : List Char) ∧
    (mkPending "#EXTINF:-1,A".toList).logo = ([] : List Char) ∧
    (mkPending "#EXTINF:-1,A".toList).group = defaultGroup :=
  ⟨(c8_record_invariants c4docOneHeader "s".toList).1 _ (by decide),
   (c8_record_invariants c4docOneHeader "s".toList).2.1 _ (by decide),
   (c8_record_invariants c4docOneHeader "s".toList).2.2 _ (by decide)⟩

end LiveTV
